import Mathlib

/-!
A shallow embedding of the fileslice crate (src/lib.rs).  A FileSlice is a
byte-range window onto a shared file descriptor, with slicing, positional
reads, seeking, expansion and descriptor reclamation.

Machine integers are modelled as Nat (u64) and Int (i64, i128).  Arithmetic
the Rust code performs on u64 is checked: an operation that would overflow
or underflow u64 is an arithmetic failure in a debug-profile build (release
builds wrap instead), modelled as Option.none; where the debug and release
behaviours diverge observably this is noted at the theorem.  The i128
arithmetic in seek cannot overflow i128 for any representable operands, so
it is modelled as exact Int arithmetic.  The file descriptor behind the Arc
is modelled by an identity number; the underlying file's bytes are a list,
and the platform positional-read primitive returns bytes from the given
offset, at most the requested count, stopping at end of file.
-/

namespace FileSliceModel

/-- Two to the 64: one past the largest u64. -/
def U64LIM : Nat := 18446744073709551616

/-- Checked u64 addition: none models a u64 overflow (a debug-build abort). -/
def addU64 (a b : Nat) : Option Nat :=
  if a + b < U64LIM then some (a + b) else none

/-- Checked u64 subtraction: none models a u64 underflow (a debug-build abort). -/
def subU64 (a b : Nat) : Option Nat :=
  if b ≤ a then some (a - b) else none

/-- The FileSlice struct: the shared descriptor (its identity), the cursor,
and the window bounds start and end.  The Arc's reference count appears as
an explicit parameter of try_unwrap. -/
structure FileSlice where
  file : Nat
  cursor : Nat
  start : Nat
  end_ : Nat
deriving DecidableEq

/-- std::ops::Bound of u64, as consumed by slice through RangeBounds. -/
inductive Bound where
  | included (x : Nat)
  | excluded (x : Nat)
  | unbounded
deriving DecidableEq

/-- A RangeBounds value: the pair of its start and end bounds. -/
structure RangeBounds where
  start_bound : Bound
  end_bound : Bound
deriving DecidableEq

/-- FileSlice::new.  The OS length query (File::metadata followed by len)
is a parameter: either the file length or an OS error code.  The code calls
unwrap on it, so the error case does not return a value (none). -/
def new (file : Nat) (metadataLen : Except Nat Nat) : Option FileSlice :=
  match metadataLen with
  | Except.ok len => some ⟨file, 0, 0, len⟩
  | Except.error _ => none

/-- The absolute start offset FileSlice::slice computes from the range's
start bound (u64 arithmetic, checked). -/
def sliceStart (fs : FileSlice) (r : RangeBounds) : Option Nat :=
  match r.start_bound with
  | Bound.included x => addU64 fs.start x
  | Bound.excluded x => (addU64 fs.start x).bind (fun v => addU64 v 1)
  | Bound.unbounded => some fs.start

/-- The absolute end offset FileSlice::slice computes from the range's end
bound, before clamping (u64 arithmetic, checked). -/
def sliceEndRaw (fs : FileSlice) (r : RangeBounds) : Option Nat :=
  match r.end_bound with
  | Bound.included x => (addU64 fs.start x).bind (fun v => addU64 v 1)
  | Bound.excluded x => addU64 fs.start x
  | Bound.unbounded => some fs.end_

/-- FileSlice::slice: the range is interpreted relative to the view, the
raw end is clamped with min against the parent end and then max against the
child start, the child cursor starts at the child start, and the descriptor
is shared. -/
def slice (fs : FileSlice) (r : RangeBounds) : Option FileSlice :=
  match sliceStart fs r, sliceEndRaw fs r with
  | some s, some e => some ⟨fs.file, s, s, max (min e fs.end_) s⟩
  | _, _ => none

/-- The platform positional-read primitive (pread, seek_read): the bytes of
the file at the given offset, at most len of them, stopping at end of file.
The file is modelled by its list of bytes. -/
def readAt (file : List Nat) (off len : Nat) : List Nat :=
  (file.drop off).take len

/-- Read::read for FileSlice: remaining is end - cursor in u64 (checked),
a buffer of length buflen is truncated to remaining when longer, one
positional read is issued at the cursor, and the cursor advances by the
number of bytes returned. -/
def read (fs : FileSlice) (file : List Nat) (buflen : Nat) :
    Option (List Nat × FileSlice) :=
  match subU64 fs.end_ fs.cursor with
  | none => none
  | some remaining =>
    let len := if buflen > remaining then remaining else buflen
    let bs := readAt file fs.cursor len
    some (bs, { fs with cursor := fs.cursor + bs.length })

/-- std::io::SeekFrom: Start carries a u64, Current and End an i64. -/
inductive SeekFrom where
  | Start (x : Nat)
  | Current (x : Int)
  | End (x : Int)
deriving DecidableEq

/-- The outcome of a seek: the new relative position and view, the
out-of-bounds error with the (unchanged) view, or an arithmetic failure. -/
inductive SeekResult where
  | ok (pos : Nat) (fs : FileSlice)
  | err (fs : FileSlice)
  | fault
deriving DecidableEq

/-- The i128 target offset seek computes: Current and End widen to i128
before adding; Start adds start and the offset in u64 first (checked) and
only widens the sum. -/
def seekTarget (fs : FileSlice) (pos : SeekFrom) : Option Int :=
  match pos with
  | SeekFrom.Current x => some ((fs.cursor : Int) + x)
  | SeekFrom.Start x => (addU64 fs.start x).map (fun v => (v : Int))
  | SeekFrom.End x => some ((fs.end_ : Int) + x)

/-- Seek::seek for FileSlice: the target is narrowed with u64::try_from and
must be at least start, otherwise the out-of-bounds error leaves the view
unchanged; on success the cursor moves to the target and the returned
position is cursor - start. -/
def seek (fs : FileSlice) (pos : SeekFrom) : SeekResult :=
  match seekTarget fs pos with
  | none => SeekResult.fault
  | some c =>
    if 0 ≤ c ∧ c < (U64LIM : Int) then
      if fs.start ≤ c.toNat then
        SeekResult.ok (c.toNat - fs.start) { fs with cursor := c.toNat }
      else SeekResult.err fs
    else SeekResult.err fs

/-- Seek::stream_position: Ok(cursor - start), a u64 subtraction (checked). -/
def stream_position (fs : FileSlice) : Option Nat :=
  subU64 fs.cursor fs.start

/-- FileSlice::expand: start becomes 0 and end the freshly queried file
length; a failing length query hits unwrap (none). -/
def expand (fs : FileSlice) (metadataLen : Except Nat Nat) : Option FileSlice :=
  match metadataLen with
  | Except.ok len => some { fs with start := 0, end_ := len }
  | Except.error _ => none

/-- FileSlice::try_unwrap, with the Arc's strong reference count as an
explicit parameter: Arc::try_unwrap yields the descriptor exactly when the
count is 1, and otherwise the FileSlice is rebuilt, unchanged, from its
fields. -/
def try_unwrap (fs : FileSlice) (refcount : Nat) : Except FileSlice Nat :=
  if refcount = 1 then Except.ok fs.file
  else Except.error ⟨fs.file, fs.cursor, fs.start, fs.end_⟩

/-- The data-model invariant of a view, against the length the underlying
file had at the view's creation or last expansion. -/
def Inv (fs : FileSlice) (len : Nat) : Prop :=
  fs.start ≤ fs.end_ ∧ fs.start ≤ fs.cursor ∧ fs.end_ ≤ len

theorem addU64_eq (a b : Nat) (h : a + b < U64LIM) : addU64 a b = some (a + b) := by
  simp [addU64, h]

theorem addU64_some (a b s : Nat) (h : addU64 a b = some s) :
    s = a + b ∧ a + b < U64LIM := by
  unfold addU64 at h
  split at h
  · exact ⟨(Option.some.inj h).symm, by assumption⟩
  · cases h

theorem readAt_length (file : List Nat) (off len : Nat) :
    (readAt file off len).length = min len (file.length - off) := by
  simp [readAt]

theorem sliceStart_ge (fs : FileSlice) (r : RangeBounds) (s : Nat)
    (h : sliceStart fs r = some s) : fs.start ≤ s := by
  unfold sliceStart at h
  split at h
  · obtain ⟨rfl, -⟩ := addU64_some _ _ _ h
    omega
  · cases hv : addU64 fs.start _ with
    | none => rw [hv] at h; cases h
    | some v =>
      rw [hv] at h
      simp only [Option.some_bind] at h
      obtain ⟨rfl, -⟩ := addU64_some _ _ _ h
      obtain ⟨rfl, -⟩ := addU64_some _ _ _ hv
      omega
  · obtain rfl := Option.some.inj h
    omega

theorem slice_none_start (fs : FileSlice) (r : RangeBounds)
    (h : sliceStart fs r = none) : slice fs r = none := by
  unfold slice
  split
  · next s e hs he => rw [h] at hs; cases hs
  · rfl

theorem seek_eq (fs : FileSlice) (pos : SeekFrom) (t : Int)
    (ht : seekTarget fs pos = some t) :
    seek fs pos =
      if 0 ≤ t ∧ t < (U64LIM : Int) then
        if fs.start ≤ t.toNat then
          SeekResult.ok (t.toNat - fs.start) { fs with cursor := t.toNat }
        else SeekResult.err fs
      else SeekResult.err fs := by
  unfold seek
  rw [ht]

theorem seek_eq_none (fs : FileSlice) (pos : SeekFrom)
    (ht : seekTarget fs pos = none) : seek fs pos = SeekResult.fault := by
  unfold seek
  rw [ht]

theorem slice_included_excluded (fs : FileSlice) (s e : Nat)
    (h1 : fs.start + s < U64LIM) (h2 : fs.start + e < U64LIM) :
    slice fs ⟨Bound.included s, Bound.excluded e⟩ =
      some ⟨fs.file, fs.start + s, fs.start + s,
        max (min (fs.start + e) fs.end_) (fs.start + s)⟩ := by
  simp [slice, sliceStart, sliceEndRaw, addU64_eq, h1, h2]

/-- C1: counterexample.  Slicing the window from 0 to 10 with the range
from 20 to 30 gives a child whose start and end are both 20, beyond the
parent end 10: the child view escapes its parent's bounds when the range's
start offset exceeds the parent's window length. -/
theorem slice_escape_cex :
    slice ⟨0, 0, 0, 10⟩ ⟨Bound.included 20, Bound.excluded 30⟩ =
      some ⟨0, 20, 20, 20⟩ ∧
    ¬ ((FileSlice.mk 0 20 20 20).end_ ≤ (FileSlice.mk 0 0 0 10).end_) := by
  decide

/-- C1 (amended): whenever the computed child start does not exceed the
parent's end (equivalently, the requested start offset does not exceed the
parent's window length), the child view returned by slice is contained in
the parent: parent.start ≤ child.start ≤ child.end ≤ parent.end, for any
combination of bounded and unbounded endpoints. -/
theorem slice_contained (fs : FileSlice) (r : RangeBounds) (c : FileSlice)
    (h : slice fs r = some c) (hb : c.start ≤ fs.end_) :
    fs.start ≤ c.start ∧ c.start ≤ c.end_ ∧ c.end_ ≤ fs.end_ := by
  unfold slice at h
  split at h
  · next s e hs he =>
      obtain rfl := (Option.some.inj h)
      refine ⟨sliceStart_ge fs r s hs, ?_, ?_⟩
      · simp only []
        omega
      · simp only [] at hb ⊢
        omega
  · cases h

/-- Witness for the amended C1 at a concrete slice. -/
theorem slice_contained_w :
    (FileSlice.mk 0 0 0 10).start ≤ (FileSlice.mk 0 2 2 8).start ∧
    (FileSlice.mk 0 2 2 8).start ≤ (FileSlice.mk 0 2 2 8).end_ ∧
    (FileSlice.mk 0 2 2 8).end_ ≤ (FileSlice.mk 0 0 0 10).end_ :=
  slice_contained ⟨0, 0, 0, 10⟩ ⟨Bound.included 2, Bound.excluded 8⟩ ⟨0, 2, 2, 8⟩
    (by decide) (by decide)

/-- C2: the code, evaluated at the failing input.  On the window from 0 to
10, seeking to 50 succeeds (the cursor may pass the end), but read then
computes end - cursor in u64, which underflows: a debug build aborts
(modelled none) instead of returning 0 bytes; a release build wraps, skips
the buffer truncation, and returns bytes from beyond the window. -/
theorem read_past_end_underflow :
    seek ⟨0, 0, 0, 10⟩ (SeekFrom.Start 50) = SeekResult.ok 50 ⟨0, 50, 0, 10⟩ ∧
    read ⟨0, 50, 0, 10⟩ (List.replicate 100 7) 5 = none := by
  decide

/-- C3: the code, evaluated at the failing input.  For SeekFrom::Start the
sum start + offset is computed in u64 before the widening to i128, so with
start 1 and offset u64::MAX the addition overflows u64: a debug build
aborts (modelled fault) rather than detecting the overflow in wide
arithmetic and returning an error. -/
theorem seek_start_overflow :
    seek ⟨0, 1, 1, 10⟩ (SeekFrom.Start (U64LIM - 1)) = SeekResult.fault := by
  decide

/-- C4: counterexample.  When the OS length query fails, new and expand do
not return the error to the caller: the unwrap aborts (modelled none), so
there is no returned error value. -/
theorem new_error_cex :
    new 0 (Except.error 7) = none ∧ expand ⟨0, 3, 2, 8⟩ (Except.error 7) = none := by
  decide

/-- C4 (amended): when the OS length query fails, new and expand abort via
unwrap instead of returning the error; when it succeeds, new yields the
whole-file view and expand resets the window to the fresh length. -/
theorem new_expand_error_behavior :
    (∀ f e, new f (Except.error e) = none) ∧
    (∀ f l, new f (Except.ok l) = some (FileSlice.mk f 0 0 l)) ∧
    (∀ fs e, expand fs (Except.error e) = none) ∧
    (∀ fs l, expand fs (Except.ok l) = some { fs with start := 0, end_ := l }) :=
  ⟨fun _ _ => rfl, fun _ _ => rfl, fun _ _ => rfl, fun _ _ => rfl⟩

/-- C9: try_unwrap returns the raw descriptor exactly when the reference
count is 1, and otherwise returns the original view unchanged (same
descriptor, cursor, start and end) as the non-success value. -/
theorem try_unwrap_spec (fs : FileSlice) (rc : Nat) :
    (try_unwrap fs rc = Except.ok fs.file ↔ rc = 1) ∧
    (rc ≠ 1 → try_unwrap fs rc = Except.error fs) := by
  unfold try_unwrap
  by_cases h : rc = 1
  · simp [h]
  · simp [h]

/-- Witness for C9 at a concrete view with reference count 2. -/
theorem try_unwrap_spec_w :
    try_unwrap ⟨3, 5, 4, 9⟩ 2 = Except.error ⟨3, 5, 4, 9⟩ :=
  (try_unwrap_spec ⟨3, 5, 4, 9⟩ 2).2 (by decide)

/-- C10: the child view returned by slice has its cursor at its own start,
so its stream position is 0, whatever the parent's cursor was. -/
theorem slice_cursor_reset (fs : FileSlice) (r : RangeBounds) (c : FileSlice)
    (h : slice fs r = some c) :
    c.cursor = c.start ∧ stream_position c = some 0 := by
  unfold slice at h
  split at h
  · next s e hs he =>
      obtain rfl := (Option.some.inj h)
      exact ⟨rfl, by simp [stream_position, subU64]⟩
  · cases h

/-- Witness for C10: slicing a view whose cursor is 7 yields a child whose
cursor equals its start 5 and whose stream position is 0. -/
theorem slice_cursor_reset_w :
    (FileSlice.mk 0 5 5 9).cursor = (FileSlice.mk 0 5 5 9).start ∧
    stream_position ⟨0, 5, 5, 9⟩ = some 0 :=
  slice_cursor_reset ⟨0, 7, 3, 9⟩ ⟨Bound.included 2, Bound.unbounded⟩ ⟨0, 5, 5, 9⟩
    (by decide)

/-- C5: for a view with start ≤ cursor ≤ end, read truncates the request
to end - cursor, issues one positional read at absolute offset cursor for
at most that many bytes, advances the cursor by exactly the number of bytes
returned, and the returned bytes are the file's bytes at offsets from
cursor (at least start) to cursor plus that count (at most end), hence
never from outside the window. -/
theorem read_spec (fs : FileSlice) (file : List Nat) (buflen : Nat)
    (h1 : fs.start ≤ fs.cursor) (h2 : fs.cursor ≤ fs.end_) :
    read fs file buflen =
      some (readAt file fs.cursor (min buflen (fs.end_ - fs.cursor)),
        { fs with cursor :=
            fs.cursor +
              (readAt file fs.cursor (min buflen (fs.end_ - fs.cursor))).length }) ∧
    fs.start ≤ fs.cursor ∧
    fs.cursor + (readAt file fs.cursor (min buflen (fs.end_ - fs.cursor))).length ≤
      fs.end_ := by
  have hrem : subU64 fs.end_ fs.cursor = some (fs.end_ - fs.cursor) := by
    simp [subU64, h2]
  have hif : (if buflen > fs.end_ - fs.cursor then fs.end_ - fs.cursor else buflen)
      = min buflen (fs.end_ - fs.cursor) := by
    split <;> omega
  refine ⟨?_, h1, ?_⟩
  · simp only [read, hrem]
    rw [hif]
  · have hlen := readAt_length file fs.cursor (min buflen (fs.end_ - fs.cursor))
    omega

/-- Witness for C5: a window from 1 to 5 with cursor 2 over a 7-byte file
reads exactly the 3 remaining in-window bytes. -/
theorem read_spec_w :
    read ⟨0, 2, 1, 5⟩ [10, 11, 12, 13, 14, 15, 16] 10 =
      some (readAt [10, 11, 12, 13, 14, 15, 16] 2 (min 10 (5 - 2)),
        { (⟨0, 2, 1, 5⟩ : FileSlice) with cursor :=
            2 + (readAt [10, 11, 12, 13, 14, 15, 16] 2 (min 10 (5 - 2))).length }) ∧
    1 ≤ 2 ∧
    2 + (readAt [10, 11, 12, 13, 14, 15, 16] 2 (min 10 (5 - 2))).length ≤ 5 :=
  read_spec ⟨0, 2, 1, 5⟩ [10, 11, 12, 13, 14, 15, 16] 10 (by decide) (by decide)

/-- C6: for a view with start ≤ end, a seek (in any of the three forms)
whose computed target is below start fails with the out-of-bounds error and
leaves the view unchanged, while a seek whose representable target is
beyond end succeeds and moves the cursor to that target, returning the new
window-relative position. -/
theorem seek_bounds (fs : FileSlice) (pos : SeekFrom) (t : Int)
    (hse : fs.start ≤ fs.end_) (ht : seekTarget fs pos = some t) :
    (t < (fs.start : Int) → seek fs pos = SeekResult.err fs) ∧
    ((fs.end_ : Int) < t → t < (U64LIM : Int) →
      seek fs pos = SeekResult.ok (t.toNat - fs.start) { fs with cursor := t.toNat }) := by
  constructor
  · intro hlt
    rw [seek_eq fs pos t ht]
    by_cases hc : (0 : Int) ≤ t ∧ t < (U64LIM : Int)
    · rw [if_pos hc, if_neg (show ¬ fs.start ≤ t.toNat by omega)]
    · rw [if_neg hc]
  · intro hgt hrep
    rw [seek_eq fs pos t ht,
      if_pos (show (0 : Int) ≤ t ∧ t < (U64LIM : Int) from ⟨by omega, hrep⟩),
      if_pos (show fs.start ≤ t.toNat by omega)]

/-- Witness for C6: a relative seek of -4 from cursor 5 lands at 1, before
start 3, so it fails and the view is unchanged. -/
theorem seek_bounds_w :
    seek ⟨0, 5, 3, 10⟩ (SeekFrom.Current (-4)) = SeekResult.err ⟨0, 5, 3, 10⟩ :=
  (seek_bounds ⟨0, 5, 3, 10⟩ (SeekFrom.Current (-4)) 1 (by decide) (by decide)).1
    (by decide)

/-- C7: counterexample.  Slicing the window from 0 to 100 with the range
from 0 to 10 and then the result with the range from 0 to 20 yields the
window from 0 to 10 (the intermediate end clamps), but slicing the original
directly with the composed absolute range from 0 to 20 yields the window
from 0 to 20: the two differ, so slicing is not associative. -/
theorem slice_assoc_cex :
    slice ⟨0, 0, 0, 100⟩ ⟨Bound.included 0, Bound.excluded 10⟩ =
      some ⟨0, 0, 0, 10⟩ ∧
    slice ⟨0, 0, 0, 10⟩ ⟨Bound.included 0, Bound.excluded 20⟩ =
      some ⟨0, 0, 0, 10⟩ ∧
    slice ⟨0, 0, 0, 100⟩ ⟨Bound.included 0, Bound.excluded 20⟩ =
      some ⟨0, 0, 0, 20⟩ ∧
    FileSlice.mk 0 0 0 10 ≠ FileSlice.mk 0 0 0 20 := by
  decide

/-- C7 (amended): slicing is associative whenever the second range fits
within the first, that is s1 + e2 ≤ e1: slicing the view with s1..e1 and
then the result with s2..e2 equals slicing the original view directly with
the offset-composed range (s1+s2)..(s1+e2), with no further condition on
the ranges or the view. -/
theorem slice_assoc (fs c : FileSlice) (s1 e1 s2 e2 : Nat)
    (h4 : s1 + e2 ≤ e1)
    (hc : slice fs ⟨Bound.included s1, Bound.excluded e1⟩ = some c) :
    slice c ⟨Bound.included s2, Bound.excluded e2⟩ =
      slice fs ⟨Bound.included (s1 + s2), Bound.excluded (s1 + e2)⟩ := by
  unfold slice at hc
  split at hc
  · next s e hs he =>
      obtain rfl := (Option.some.inj hc)
      simp only [sliceStart] at hs
      simp only [sliceEndRaw] at he
      obtain ⟨rfl, hs2⟩ := addU64_some _ _ _ hs
      obtain ⟨rfl, he2⟩ := addU64_some _ _ _ he
      by_cases hov : fs.start + s1 + s2 < U64LIM
      · rw [slice_included_excluded _ s2 e2 (by simp only []; omega)
            (by simp only []; omega),
          slice_included_excluded fs (s1 + s2) (s1 + e2) (by omega) (by omega)]
        simp only [Option.some.injEq, FileSlice.mk.injEq]
        refine ⟨trivial, by omega, by omega, by omega⟩
      · rw [slice_none_start _ _
            (by simp only [sliceStart]; unfold addU64
                rw [if_neg (by omega)]),
          slice_none_start _ _
            (by simp only [sliceStart]; unfold addU64
                rw [if_neg (by omega)])]
  · cases hc

/-- Witness for the amended C7 at concrete ranges with the second inside
the first. -/
theorem slice_assoc_w :
    slice ⟨0, 10, 10, 40⟩ ⟨Bound.included 5, Bound.excluded 10⟩ =
      slice ⟨0, 0, 0, 100⟩ ⟨Bound.included (10 + 5), Bound.excluded (10 + 10)⟩ :=
  slice_assoc ⟨0, 0, 0, 100⟩ ⟨0, 10, 10, 40⟩ 10 40 5 10 (by decide) (by decide)

/-- C8: counterexample.  Starting from the root view of a 100-byte file,
slicing with the range from 200 to 300 yields a view whose end 200 exceeds
the file length 100 recorded at creation, so the invariant that end never
exceeds that length is not preserved by slice. -/
theorem inv_break_cex :
    new 0 (Except.ok 100) = some ⟨0, 0, 0, 100⟩ ∧
    slice ⟨0, 0, 0, 100⟩ ⟨Bound.included 200, Bound.excluded 300⟩ =
      some ⟨0, 200, 200, 200⟩ ∧
    ¬ ((FileSlice.mk 0 200 200 200).end_ ≤ 100) := by
  decide

/-- C8 (amended): the invariants hold after construction and are preserved
by every operation, except that slice keeps end within the recorded file
length only when the computed child start does not exceed the parent's end:
new establishes the invariant; slice always gives start ≤ end and cursor at
start; read and a successful seek preserve the invariant; a failed seek,
stream_position and a failed try_unwrap leave the view unchanged; expand
re-establishes the invariant against the fresh length. -/
theorem inv_preserved (fs : FileSlice) (len : Nat) (hinv : Inv fs len) :
    (∀ f l c, new f (Except.ok l) = some c → Inv c l) ∧
    (∀ r c, slice fs r = some c →
      c.start ≤ c.end_ ∧ c.cursor = c.start ∧ (c.start ≤ fs.end_ → c.end_ ≤ len)) ∧
    (∀ file buflen bs c, read fs file buflen = some (bs, c) → Inv c len) ∧
    (∀ pos p c, seek fs pos = SeekResult.ok p c → Inv c len) ∧
    (∀ pos c, seek fs pos = SeekResult.err c → c = fs) ∧
    stream_position fs = some (fs.cursor - fs.start) ∧
    (∀ l c, expand fs (Except.ok l) = some c → Inv c l) ∧
    (∀ rc, rc ≠ 1 → try_unwrap fs rc = Except.error fs) := by
  obtain ⟨hi1, hi2, hi3⟩ := hinv
  refine ⟨?_, ?_, ?_, ?_, ?_, ?_, ?_, ?_⟩
  · intro f l c h
    obtain rfl := (Option.some.inj h)
    exact ⟨Nat.zero_le _, Nat.zero_le _, Nat.le_refl _⟩
  · intro r c h
    unfold slice at h
    split at h
    · next s e hs he =>
        obtain rfl := (Option.some.inj h)
        refine ⟨by simp only []; omega, rfl, ?_⟩
        intro hb
        simp only [] at hb ⊢
        omega
    · cases h
  · intro file buflen bs c h
    unfold read at h
    cases hsub : subU64 fs.end_ fs.cursor with
    | none => rw [hsub] at h; cases h
    | some remaining =>
        rw [hsub] at h
        simp only [Option.some.injEq, Prod.mk.injEq] at h
        obtain ⟨-, rfl⟩ := h
        exact ⟨hi1, by simp only []; omega, hi3⟩
  · intro pos p c h
    cases ht : seekTarget fs pos with
    | none => rw [seek_eq_none fs pos ht] at h; cases h
    | some t =>
        rw [seek_eq fs pos t ht] at h
        by_cases hc : (0 : Int) ≤ t ∧ t < (U64LIM : Int)
        · rw [if_pos hc] at h
          by_cases hg : fs.start ≤ t.toNat
          · rw [if_pos hg] at h
            obtain ⟨-, rfl⟩ := SeekResult.ok.inj h
            exact ⟨hi1, hg, hi3⟩
          · rw [if_neg hg] at h; cases h
        · rw [if_neg hc] at h; cases h
  · intro pos c h
    cases ht : seekTarget fs pos with
    | none => rw [seek_eq_none fs pos ht] at h; cases h
    | some t =>
        rw [seek_eq fs pos t ht] at h
        by_cases hc : (0 : Int) ≤ t ∧ t < (U64LIM : Int)
        · rw [if_pos hc] at h
          by_cases hg : fs.start ≤ t.toNat
          · rw [if_pos hg] at h; cases h
          · rw [if_neg hg] at h; exact (SeekResult.err.inj h).symm
        · rw [if_neg hc] at h; exact (SeekResult.err.inj h).symm
  · simp [stream_position, subU64, hi2]
  · intro l c h
    obtain rfl := (Option.some.inj h)
    exact ⟨Nat.zero_le _, Nat.zero_le _, Nat.le_refl _⟩
  · intro rc h
    unfold try_unwrap
    rw [if_neg h]

/-- Witness for the amended C8: a failed try_unwrap (reference count 2)
returns the invariant-satisfying view unchanged. -/
theorem inv_preserved_w :
    try_unwrap ⟨0, 3, 2, 8⟩ 2 = Except.error ⟨0, 3, 2, 8⟩ :=
  (inv_preserved ⟨0, 3, 2, 8⟩ 9 ⟨by decide, by decide, by decide⟩).2.2.2.2.2.2.2 2
    (by decide)

end FileSliceModel
